import Mathlib

set_option autoImplicit false

/-!
Verification of the generic paged EEPROM transfer engine (`EEPROM.c`/`EEPROM.h`)
and the EERAM 47x04 store operation (`47x04.c`/`47x04.h`).

The C code is shallowly embedded: machine integers become `Nat` with explicit
masking where overflow or truncation matters, the I2C transport and the
millisecond clock become oracles (`Nat → _` functions giving the result of the
k-th call), and the unbounded `while` loops become fuel-indexed recursions
returning `Option` (`none` = the loop did not terminate within the fuel).
-/

namespace Memories

/-- Error result codes used by the drivers (from `ErrorsDef.h`, as consumed by
`EEPROM.c` and `47x04.c`; the repository builds with `USE_ERROR_CONTEXT`
undefined, so `ERR_GENERATE`/`ERR_ERROR_Get` are the identity). -/
inductive eERRORRESULT where
  | ERR_NONE
  | ERR__OUT_OF_MEMORY
  | ERR__OUT_OF_RANGE
  | ERR__NOT_READY
  | ERR__DEVICE_TIMEOUT
  | ERR__I2C_NACK
  | ERR__I2C_NACK_DATA
  | ERR__I2C_INVALID_ADDRESS
  | ERR__I2C_INVALID_COMMAND
  | ERR__PARAMETER_ERROR
  | ERR__I2C_FREQUENCY_ERROR
  | ERR__NO_DEVICE_DETECTED
  | ERR__I2C_BUSY
  | ERR__I2C_OTHER_BUSY
  | ERR__I2C_COMM_ERROR
  | ERR__DMA_ERROR
deriving DecidableEq

open eERRORRESULT

/-- UINT32_MAX from `<stdint.h>`. -/
def UINT32_MAX : Nat := 2 ^ 32 - 1

/-- EEPROM_TIME_DIFF macro, `EEPROM.c` line 118:
`( ((end) >= (begin)) ? ((end) - (begin)) : (UINT32_MAX - ((begin) - (end) - 1)) )`.
Both operands are `uint32_t` millisecond counter values. -/
def EEPROM_TIME_DIFF (tbegin tend : Nat) : Nat :=
  if tend ≥ tbegin then tend - tbegin else UINT32_MAX - (tbegin - tend - 1)

/-- EEPROM device configuration, fields as read by `EEPROM.c`
(`ChipAddress`, `AddressType`, `PageWriteTime`, `PageSize`, `OffsetAddress`,
`TotalByteSize`; the remaining fields of the C struct are not used by the
verified functions). -/
structure EEPROM_Conf where
  ChipAddress : Nat
  AddressType : Nat
  PageWriteTime : Nat
  PageSize : Nat
  OffsetAddress : Nat
  TotalByteSize : Nat
deriving DecidableEq

/-- Mask `EEPROM_ADDRESS_Bytes_MASK = 0x0F` from `EEPROM.h`. -/
def EEPROM_ADDRESS_Bytes_MASK : Nat := 0x0F

/-- Mask `EEPROM_ADDRESS_plus_Ax_MASK = 0xE0` from `EEPROM.h`. -/
def EEPROM_ADDRESS_plus_Ax_MASK : Nat := 0xE0

/-- The thirteen `eEEPROM_AddressType` enumerators from `EEPROM.h`
(1..4 plain byte widths, and the `plus_A0` / `plus_A1A0` / `plus_A2A1A0`
variants for widths 1..3). -/
def EEPROM_SupportedAddressTypes : List Nat :=
  [0x01, 0x21, 0x61, 0xE1, 0x02, 0x22, 0x62, 0xE2, 0x03, 0x23, 0x63, 0xE3, 0x04]

/-- `I2C_WRITE_ANDMASK = 0xFE` from `I2C_Interface.h`. -/
def I2C_WRITE_ANDMASK : Nat := 0xFE

/-- AddrBytes local of `__EEPROM_WriteAddress` (`EEPROM.c` line 194):
`pConf->AddressType & EEPROM_ADDRESS_Bytes_MASK`. -/
def AddrBytes (conf : EEPROM_Conf) : Nat :=
  conf.AddressType &&& EEPROM_ADDRESS_Bytes_MASK

/-- AddrTypeAx local of `__EEPROM_WriteAddress` (`EEPROM.c` line 195):
`(pConf->AddressType & EEPROM_ADDRESS_plus_Ax_MASK) >> 4`. -/
def AddrTypeAx (conf : EEPROM_Conf) : Nat :=
  (conf.AddressType &&& EEPROM_ADDRESS_plus_Ax_MASK) >>> 4

/-- Address actually encoded by `__EEPROM_WriteAddress` (`EEPROM.c` line 196):
`address += pConf->OffsetAddress` on a `uint32_t`. -/
def effAddress (conf : EEPROM_Conf) (address : Nat) : Nat :=
  (address + conf.OffsetAddress) % 2 ^ 32

/-- Address byte array built by `__EEPROM_WriteAddress` (`EEPROM.c` line 200):
`for (z = AddrBytes; --z >= 0;) Address[z] = (address >> ((AddrBytes - z - 1) * 8)) & 0xFF`,
listed as `Address[0], ..., Address[AddrBytes-1]` (the transmitted order). -/
def __EEPROM_AddressBytes (addrBytes address : Nat) : List Nat :=
  (List.range addrBytes).map (fun z => (address >>> ((addrBytes - z - 1) * 8)) &&& 0xFF)

/-- Chip-select byte built by `__EEPROM_WriteAddress` (`EEPROM.c` line 205):
`(pConf->ChipAddress | (pComp->AddrA2A1A0 & ~AddrTypeAx) | ((address >> (8 * AddrBytes - 1)) & AddrTypeAx)) & I2C_WRITE_ANDMASK`.
`~AddrTypeAx` on a byte operand is `0xFF ^ AddrTypeAx`. -/
def __EEPROM_ChipAddrByte (chipAddress addrA2A1A0 addrTypeAx addrBytes address : Nat) : Nat :=
  ((chipAddress ||| (addrA2A1A0 &&& (0xFF ^^^ addrTypeAx)))
      ||| ((address >>> (8 * addrBytes - 1)) &&& addrTypeAx))
    &&& I2C_WRITE_ANDMASK

/-- Address bytes emitted by `__EEPROM_WriteAddress` for a configuration. -/
def writeAddressBytes (conf : EEPROM_Conf) (address : Nat) : List Nat :=
  __EEPROM_AddressBytes (AddrBytes conf) address

/-- Chip-select byte emitted by `__EEPROM_WriteAddress` for a configuration. -/
def chipAddrByte (conf : EEPROM_Conf) (addrA2A1A0 address : Nat) : Nat :=
  __EEPROM_ChipAddrByte conf.ChipAddress addrA2A1A0 (AddrTypeAx conf) (AddrBytes conf) address

/-- Error translation at the end of `__EEPROM_WriteAddress` (`EEPROM.c`
lines 212-214): an address-phase NACK becomes `ERR__NOT_READY`, a data-phase
NACK becomes `ERR__I2C_INVALID_ADDRESS`, anything else is returned unchanged. -/
def writeAddressTranslate (transferResult : eERRORRESULT) : eERRORRESULT :=
  if transferResult = ERR__I2C_NACK then ERR__NOT_READY
  else if transferResult = ERR__I2C_NACK_DATA then ERR__I2C_INVALID_ADDRESS
  else transferResult

/-- Big-endian value of a byte list (most significant byte first); used to
state what the emitted address byte sequence denotes. -/
def beValue (bytes : List Nat) : Nat :=
  bytes.foldl (fun acc b => acc * 256 + b) 0

/-- Number of select bits folded into the chip-select byte: the `AddrTypeAx`
masks of the supported address types are `0x0, 0x2, 0x6, 0xE`, that is
`2^(f+1) - 2` for a fold count `f` of 0..3 bits. -/
def foldWidth (ax : Nat) : Nat :=
  if ax = 0 then 0 else if ax = 2 then 1 else if ax = 6 then 2 else 3

/-- Inverse address mapping of a device profile, following the specification:
the folded chip-select bits (the bits of the chip-select byte selected by the
`AddrTypeAx` mask) are concatenated above the big-endian address bytes, and
the profile's fixed `OffsetAddress` is removed. This definition follows the
spec's words and is compared against the encoder taken from the source. -/
def specDecodeAddress (conf : EEPROM_Conf) (chipSel : Nat) (addressBytes : List Nat) : Nat :=
  ((chipSel &&& AddrTypeAx conf) >>> 1) * 2 ^ (8 * AddrBytes conf)
    + beValue addressBytes - conf.OffsetAddress

/-- Chunk sequence of the paging loops of `EEPROM_ReadData` / `EEPROM_WriteData`
(`EEPROM.c` lines 264-284 and 338-358), data-path only: per iteration
`PageRemData = PageSize - (address & (PageSize - 1))`, clipped to the remaining
size, then `address += PageRemData; size -= PageRemData`. The fuel argument is
a modelling device bounding the iteration count; the loop consumes at least one
byte per iteration whenever `PageSize > 0`, so fuel `size` is always enough. -/
def pageChunksAux (pageSize : Nat) : Nat → Nat → Nat → List (Nat × Nat)
  | 0, _, _ => []
  | fuel + 1, address, size =>
    if size = 0 then []
    else
      let PageRemData := pageSize - (address &&& (pageSize - 1))
      let chunk := if size < PageRemData then size else PageRemData
      (address, chunk) :: pageChunksAux pageSize fuel (address + chunk) (size - chunk)

/-- Chunk sequence of the paging loops, at fuel `size`. -/
def pageChunks (pageSize address size : Nat) : List (Nat × Nat) :=
  pageChunksAux pageSize size address size

/-- Chunk sequence as the specification words it: the chunk length for each
iteration is `min(remaining, pageSizeBytes - (address mod pageSizeBytes))`.
This definition follows the spec's words and is compared with `pageChunks`,
which is taken from the source. -/
def specChunksAux (pageSize : Nat) : Nat → Nat → Nat → List (Nat × Nat)
  | 0, _, _ => []
  | fuel + 1, address, size =>
    if size = 0 then []
    else
      let chunk := min size (pageSize - address % pageSize)
      (address, chunk) :: specChunksAux pageSize fuel (address + chunk) (size - chunk)

/-- Spec-side chunk sequence at fuel `size`. -/
def specChunks (pageSize address size : Nat) : List (Nat × Nat) :=
  specChunksAux pageSize size address size

/-- Single page primitive `__EEPROM_ReadPage` / `__EEPROM_WritePage`
(`EEPROM.c` lines 221-245 and 295-319), abstracted over the transport: the
defensive bound `if (size > pConf->PageSize) return ERR__OUT_OF_RANGE` is kept,
and the remainder (address phase plus data phase, including the NACK
translation of `__EEPROM_WriteAddress`) is the oracle `page`, giving the
result of the `pi`-th page-primitive invocation. -/
def __EEPROM_PageOp (conf : EEPROM_Conf) (page : Nat → eERRORRESULT)
    (pi _address size : Nat) : eERRORRESULT :=
  if size > conf.PageSize then ERR__OUT_OF_RANGE else page pi

/-- Per-chunk retry loop of `EEPROM_ReadData` / `EEPROM_WriteData`
(`EEPROM.c` lines 271-280 and 345-354): invoke the page primitive; break on
success; return any error other than `ERR__NOT_READY` immediately; on
`ERR__NOT_READY` compare the elapsed time against `PageWriteTime + 1` and
either return `ERR__DEVICE_TIMEOUT` or poll again. Returns the loop outcome,
the page-primitive invocations `(address, size)` issued (in order), and the
next page-op / clock call indices. `clock ci` is the value of the `ci`-th
`fnGetCurrentms()` call. -/
def pageRetryAux (conf : EEPROM_Conf) (page : Nat → eERRORRESULT) (clock : Nat → Nat) :
    Nat → Nat → Nat → Nat → Nat → Nat →
      Option (eERRORRESULT × List (Nat × Nat) × Nat × Nat)
  | 0, _, _, _, _, _ => none
  | fuel + 1, pi, ci, startTime, address, size =>
    let Error := __EEPROM_PageOp conf page pi address size
    if Error = ERR_NONE then some (ERR_NONE, [(address, size)], pi + 1, ci)
    else if Error ≠ ERR__NOT_READY then some (Error, [(address, size)], pi + 1, ci)
    else if EEPROM_TIME_DIFF startTime (clock ci) > conf.PageWriteTime + 1 then
      some (ERR__DEVICE_TIMEOUT, [(address, size)], pi + 1, ci + 1)
    else
      match pageRetryAux conf page clock fuel (pi + 1) (ci + 1) startTime address size with
      | none => none
      | some (r, calls, pi', ci') => some (r, (address, size) :: calls, pi', ci')

/-- Outer paging loop of `EEPROM_ReadData` / `EEPROM_WriteData`
(`EEPROM.c` lines 264-285 and 338-359): while `size > 0`, compute the chunk,
record the start time (`fnGetCurrentms`), run the per-chunk retry loop, and on
success advance `address`/`size` by the chunk. `rfuel` bounds each inner retry
loop, `fuel` bounds the number of outer iterations. Returns the final result
and the concatenated list of page-primitive invocations. -/
def pagedLoopAux (conf : EEPROM_Conf) (page : Nat → eERRORRESULT) (clock : Nat → Nat)
    (rfuel : Nat) : Nat → Nat → Nat → Nat → Nat →
      Option (eERRORRESULT × List (Nat × Nat))
  | 0, _, _, _, _ => none
  | fuel + 1, pi, ci, address, size =>
    if size = 0 then some (ERR_NONE, [])
    else
      let PageRemData := conf.PageSize - (address &&& (conf.PageSize - 1))
      let chunk := if size < PageRemData then size else PageRemData
      let startTime := clock ci
      match pageRetryAux conf page clock rfuel pi (ci + 1) startTime address chunk with
      | none => none
      | some (r, calls, pi', ci') =>
        if r = ERR_NONE then
          match pagedLoopAux conf page clock rfuel fuel pi' ci' (address + chunk) (size - chunk) with
          | none => none
          | some (r2, calls2) => some (r2, calls ++ calls2)
        else some (r, calls)

/-- `EEPROM_WriteData` (`EEPROM.c` lines 325-360): upfront bound check
`(address + size) > TotalByteSize` returning `ERR__OUT_OF_MEMORY` with no bus
activity, then the paged write loop. -/
def EEPROM_WriteData (conf : EEPROM_Conf) (page : Nat → eERRORRESULT) (clock : Nat → Nat)
    (rfuel fuel address size : Nat) : Option (eERRORRESULT × List (Nat × Nat)) :=
  if address + size > conf.TotalByteSize then some (ERR__OUT_OF_MEMORY, [])
  else pagedLoopAux conf page clock rfuel fuel 0 0 address size

/-- `EEPROM_ReadData` (`EEPROM.c` lines 251-286): identical control structure
to `EEPROM_WriteData` with `__EEPROM_ReadPage` as the page primitive (same
defensive bound, same chunking, same retry/timeout policy), abstracted by the
same page-result oracle. -/
def EEPROM_ReadData (conf : EEPROM_Conf) (page : Nat → eERRORRESULT) (clock : Nat → Nat)
    (rfuel fuel address size : Nat) : Option (eERRORRESULT × List (Nat × Nat)) :=
  if address + size > conf.TotalByteSize then some (ERR__OUT_OF_MEMORY, [])
  else pagedLoopAux conf page clock rfuel fuel 0 0 address size

/-- Poll loop of `EEPROM_WaitEndOfWrite` (`EEPROM.c` lines 366-380):
`EEPROM_IsReady` probe (the `ri`-th probe result is `ready ri`), then the
elapsed-time check against `PageWriteTime + 1`. `clock 0` was consumed for the
start time, so the loop's checks read `clock 1, clock 2, ...`. -/
def EEPROM_WaitEndOfWriteAux (conf : EEPROM_Conf) (ready : Nat → Bool) (clock : Nat → Nat) :
    Nat → Nat → Nat → Nat → Option eERRORRESULT
  | 0, _, _, _ => none
  | fuel + 1, ri, ci, startTime =>
    if ready ri then some ERR_NONE
    else if EEPROM_TIME_DIFF startTime (clock ci) > conf.PageWriteTime + 1 then
      some ERR__DEVICE_TIMEOUT
    else EEPROM_WaitEndOfWriteAux conf ready clock fuel (ri + 1) (ci + 1) startTime

/-- `EEPROM_WaitEndOfWrite` (`EEPROM.c` lines 366-380). -/
def EEPROM_WaitEndOfWrite (conf : EEPROM_Conf) (ready : Nat → Bool) (clock : Nat → Nat)
    (fuel : Nat) : Option eERRORRESULT :=
  EEPROM_WaitEndOfWriteAux conf ready clock fuel 0 1 (clock 0)

/-- `EERAM47x04_STORE_COMMAND = 0b00110011` from `47x04.h`. -/
def EERAM47x04_STORE_COMMAND : Nat := 0x33

/-- `EERAM47x04_COMMAND_REGISTER_ADDR = 0x55` from `47x04.h`. -/
def EERAM47x04_COMMAND_REGISTER_ADDR : Nat := 0x55

/-- `EERAM47x04_ARRAY_MODIFIED = 0x1 << 7` from `47x04.h`. -/
def EERAM47x04_ARRAY_MODIFIED : Nat := 0x80

/-- `EERAM47x04_STORE_TIMEOUT = 8` (ms) from `47x04.h`; equal to the
`PageWriteTime` of the 47x04 EEPROM configurations. -/
def EERAM47x04_STORE_TIMEOUT : Nat := 8

/-- `EERAM47x04_TIME_DIFF` macro (`47x04.c` line 55), textually identical to
`EEPROM_TIME_DIFF`. -/
def EERAM47x04_TIME_DIFF (tbegin tend : Nat) : Nat :=
  if tend ≥ tbegin then tend - tbegin else UINT32_MAX - (tbegin - tend - 1)

/-- Result translation of `EERAM47x04_WriteRegister` (`47x04.c` lines 294-299):
a data-phase NACK on a register write means "bad command". The argument is the
`__EERAM47x04_WriteData` result (transport abstracted). -/
def EERAM47x04_WriteRegister_result (e : eERRORRESULT) : eERRORRESULT :=
  if e = ERR__I2C_NACK_DATA then ERR__I2C_INVALID_COMMAND else e

/-- Status poll loop of `EERAM47x04_StoreSRAMtoEEPROM` (`47x04.c` lines
383-392): read the status register (the `ri`-th read gives
`readReg ri = (error, status)`, the status being whatever the transfer leaves
in `Reg.Status`); abort on an error other than success / address-phase NACK;
break when the `ARRAY_MODIFIED` bit is clear (the function then returns the
last read's error); otherwise check the elapsed time against
`EERAM47x04_STORE_TIMEOUT + 1`. -/
def EERAM47x04_StoreWaitAux (readReg : Nat → eERRORRESULT × Nat) (clock : Nat → Nat) :
    Nat → Nat → Nat → Nat → Option eERRORRESULT
  | 0, _, _, _ => none
  | fuel + 1, ri, ci, startTime =>
    let e := (readReg ri).1
    let status := (readReg ri).2
    if e ≠ ERR_NONE ∧ e ≠ ERR__I2C_NACK then some e
    else if status &&& EERAM47x04_ARRAY_MODIFIED = 0 then some e
    else if EERAM47x04_TIME_DIFF startTime (clock ci) > EERAM47x04_STORE_TIMEOUT + 1 then
      some ERR__DEVICE_TIMEOUT
    else EERAM47x04_StoreWaitAux readReg clock fuel (ri + 1) (ci + 1) startTime

/-- `EERAM47x04_StoreSRAMtoEEPROM` (`47x04.c` lines 356-396). Oracles:
`readReg` for `EERAM47x04_ReadRegister` calls (in order), `writeResult` for
the `__EERAM47x04_WriteData` result of the single possible command-register
write, `clock` for `fnGetCurrentms`. Returns the result together with the
list of command-register writes `(register address, data)` issued. -/
def EERAM47x04_StoreSRAMtoEEPROM (forceStore waitEndOfStore : Bool)
    (readReg : Nat → eERRORRESULT × Nat) (writeResult : eERRORRESULT)
    (clock : Nat → Nat) (fuel : Nat) : Option (eERRORRESULT × List (Nat × Nat)) :=
  let riStart : Nat := if forceStore then 0 else 1
  let store : eERRORRESULT ⊕ Bool :=
    if forceStore then Sum.inr true
    else
      let e0 := (readReg 0).1
      if e0 ≠ ERR_NONE then Sum.inl e0
      else Sum.inr ((readReg 0).2 &&& EERAM47x04_ARRAY_MODIFIED > 0)
  match store with
  | Sum.inl e => some (e, [])
  | Sum.inr false => some (ERR_NONE, [])
  | Sum.inr true =>
    let e := EERAM47x04_WriteRegister_result writeResult
    if e ≠ ERR_NONE then
      some (e, [(EERAM47x04_COMMAND_REGISTER_ADDR, EERAM47x04_STORE_COMMAND)])
    else if waitEndOfStore then
      match EERAM47x04_StoreWaitAux readReg clock fuel riStart 1 (clock 0) with
      | none => none
      | some r => some (r, [(EERAM47x04_COMMAND_REGISTER_ADDR, EERAM47x04_STORE_COMMAND)])
    else some (ERR_NONE, [(EERAM47x04_COMMAND_REGISTER_ADDR, EERAM47x04_STORE_COMMAND)])

end Memories

namespace Memories

open eERRORRESULT

/-! Basic theorems: time difference arithmetic and the address-phase error
translation. -/

/-- C10: `EEPROM_TIME_DIFF(begin, end)` computes `(end - begin) mod 2^32`
exactly for all 32-bit values, including when the clock wrapped. -/
theorem EEPROM_TIME_DIFF_eq_sub_mod (tbegin tend : Nat)
    (hb : tbegin < 2 ^ 32) (he : tend < 2 ^ 32) :
    (EEPROM_TIME_DIFF tbegin tend : Int) = ((tend : Int) - (tbegin : Int)) % 2 ^ 32 := by
  unfold EEPROM_TIME_DIFF UINT32_MAX
  split <;> omega

/-- Witness for `EEPROM_TIME_DIFF_eq_sub_mod` at a wrapped-clock input. -/
theorem EEPROM_TIME_DIFF_eq_sub_mod_witness :
    (EEPROM_TIME_DIFF 10 3 : Int) = ((3 : Int) - (10 : Int)) % 2 ^ 32 :=
  EEPROM_TIME_DIFF_eq_sub_mod 10 3 (by norm_num) (by norm_num)

/-- C7: `__EEPROM_WriteAddress` translates an address-phase NACK
(`ERR__I2C_NACK`) to `ERR__NOT_READY`, a data-phase NACK
(`ERR__I2C_NACK_DATA`) to `ERR__I2C_INVALID_ADDRESS`, and propagates every
other transport result unchanged. -/
theorem writeAddressTranslate_spec :
    writeAddressTranslate eERRORRESULT.ERR__I2C_NACK = eERRORRESULT.ERR__NOT_READY ∧
    writeAddressTranslate eERRORRESULT.ERR__I2C_NACK_DATA
      = eERRORRESULT.ERR__I2C_INVALID_ADDRESS ∧
    ∀ e : eERRORRESULT, e ≠ eERRORRESULT.ERR__I2C_NACK →
      e ≠ eERRORRESULT.ERR__I2C_NACK_DATA → writeAddressTranslate e = e := by
  refine ⟨rfl, rfl, ?_⟩
  intro e h1 h2
  unfold writeAddressTranslate
  rw [if_neg h1, if_neg h2]

/-- Witness for `writeAddressTranslate_spec`: its pass-through clause applied
to a concrete bus error. -/
theorem writeAddressTranslate_spec_witness :
    writeAddressTranslate eERRORRESULT.ERR__I2C_BUSY = eERRORRESULT.ERR__I2C_BUSY :=
  writeAddressTranslate_spec.2.2 eERRORRESULT.ERR__I2C_BUSY
    (by simp) (by simp)

/-! Chunking lemmas for the paging loops. -/

/-- On a power-of-two page size, the paging loop's masked in-page offset and
clipping compute exactly the chunks the specification describes with `min`
and `mod`. -/
theorem pageChunksAux_eq_specChunksAux (k : Nat) :
    ∀ fuel address size, pageChunksAux (2 ^ k) fuel address size
      = specChunksAux (2 ^ k) fuel address size := by
  intro fuel
  induction fuel with
  | zero => intro address size; rfl
  | succ n ih =>
    intro address size
    by_cases h0 : size = 0
    · simp [pageChunksAux, specChunksAux, h0]
    · have hland : address &&& (2 ^ k - 1) = address % 2 ^ k :=
        Nat.and_pow_two_sub_one_eq_mod address k
      have hmin : (if size < 2 ^ k - address % 2 ^ k then size else 2 ^ k - address % 2 ^ k)
          = min size (2 ^ k - address % 2 ^ k) := by
        rcases Nat.lt_or_ge size (2 ^ k - address % 2 ^ k) with h | h
        · rw [if_pos h, Nat.min_eq_left (Nat.le_of_lt h)]
        · rw [if_neg (Nat.not_lt.mpr h), Nat.min_eq_right h]
      simp only [pageChunksAux, specChunksAux, h0, if_false, hland, hmin, ih]

/-- Every chunk the spec-side sequence produces is nonempty, stays within its
page, and starts at or after the requested address. -/
theorem specChunksAux_mem (k : Nat) :
    ∀ fuel address size, ∀ c ∈ specChunksAux (2 ^ k) fuel address size,
      0 < c.2 ∧ c.1 % 2 ^ k + c.2 ≤ 2 ^ k ∧ address ≤ c.1 := by
  intro fuel
  induction fuel with
  | zero => intro address size c hc; simp [specChunksAux] at hc
  | succ n ih =>
    intro address size c hc
    by_cases h0 : size = 0
    · simp [specChunksAux, h0] at hc
    · simp only [specChunksAux, h0, if_false, List.mem_cons] at hc
      have hrem : 0 < 2 ^ k - address % 2 ^ k :=
        Nat.sub_pos_of_lt (Nat.mod_lt address (Nat.two_pow_pos k))
      rcases hc with rfl | hc
      · refine ⟨?_, ?_, Nat.le_refl _⟩
        · exact lt_min (Nat.pos_of_ne_zero h0) hrem
        · show address % 2 ^ k + min size (2 ^ k - address % 2 ^ k) ≤ 2 ^ k
          omega
      · obtain ⟨h1, h2, h3⟩ := ih _ _ c hc
        exact ⟨h1, h2, by omega⟩

/-- The spec-side chunk lengths sum to the requested size (given enough fuel,
which `specChunks` supplies). -/
theorem specChunksAux_sum (k : Nat) :
    ∀ fuel address size, size ≤ fuel →
      ((specChunksAux (2 ^ k) fuel address size).map Prod.snd).sum = size := by
  intro fuel
  induction fuel with
  | zero => intro address size h; interval_cases size; rfl
  | succ n ih =>
    intro address size h
    by_cases h0 : size = 0
    · simp [specChunksAux, h0]
    · have hrem : 0 < 2 ^ k - address % 2 ^ k :=
        Nat.sub_pos_of_lt (Nat.mod_lt address (Nat.two_pow_pos k))
      have hpos : 0 < min size (2 ^ k - address % 2 ^ k) :=
        lt_min (Nat.pos_of_ne_zero h0) hrem
      have hle : min size (2 ^ k - address % 2 ^ k) ≤ size := Nat.min_le_left _ _
      simp only [specChunksAux, h0, if_false, List.map_cons, List.sum_cons]
      rw [ih _ _ (by omega)]
      omega

/-- The spec-side chunks are issued in strictly increasing address order. -/
theorem specChunksAux_pairwise (k : Nat) :
    ∀ fuel address size,
      (specChunksAux (2 ^ k) fuel address size).Pairwise (fun a b => a.1 < b.1) := by
  intro fuel
  induction fuel with
  | zero => intro address size; simp [specChunksAux]
  | succ n ih =>
    intro address size
    by_cases h0 : size = 0
    · simp [specChunksAux, h0]
    · have hrem : 0 < 2 ^ k - address % 2 ^ k :=
        Nat.sub_pos_of_lt (Nat.mod_lt address (Nat.two_pow_pos k))
      have hpos : 0 < min size (2 ^ k - address % 2 ^ k) :=
        lt_min (Nat.pos_of_ne_zero h0) hrem
      simp only [specChunksAux, h0, if_false]
      refine List.Pairwise.cons ?_ (ih _ _)
      intro b hb
      have := (specChunksAux_mem k n _ _ b hb).2.2
      omega

/-- C1: on a power-of-two page size, the paging loop of
`EEPROM_ReadData`/`EEPROM_WriteData` produces chunks whose length is
`min(remaining, PageSize - address mod PageSize)` per iteration, none of which
crosses a multiple of the page size, whose lengths sum exactly to the
requested size, in strictly increasing address order; with page size 32, a
44-byte transfer at address 20 gives exactly the chunks (20,12), (32,32). -/
theorem pagedChunking (k address size total : Nat) (_hbound : address + size ≤ total) :
    pageChunks (2 ^ k) address size = specChunks (2 ^ k) address size ∧
    ((pageChunks (2 ^ k) address size).map Prod.snd).sum = size ∧
    (∀ c ∈ pageChunks (2 ^ k) address size, 0 < c.2 ∧ c.1 % 2 ^ k + c.2 ≤ 2 ^ k) ∧
    (pageChunks (2 ^ k) address size).Pairwise (fun a b => a.1 < b.1) ∧
    pageChunks 32 20 44 = [(20, 12), (32, 32)] := by
  have heq : pageChunks (2 ^ k) address size = specChunks (2 ^ k) address size :=
    pageChunksAux_eq_specChunksAux k size address size
  refine ⟨heq, ?_, ?_, ?_, by decide⟩
  · rw [heq]; exact specChunksAux_sum k size address size (Nat.le_refl _)
  · rw [heq]; intro c hc
    exact ⟨(specChunksAux_mem k size address size c hc).1,
      (specChunksAux_mem k size address size c hc).2.1⟩
  · rw [heq]; exact specChunksAux_pairwise k size address size

/-- Witness for `pagedChunking` at page size 32, address 20, size 44. -/
theorem pagedChunking_witness :
    pageChunks (2 ^ 5) 20 44 = specChunks (2 ^ 5) 20 44 ∧
    ((pageChunks (2 ^ 5) 20 44).map Prod.snd).sum = 44 ∧
    (∀ c ∈ pageChunks (2 ^ 5) 20 44, 0 < c.2 ∧ c.1 % 2 ^ 5 + c.2 ≤ 2 ^ 5) ∧
    (pageChunks (2 ^ 5) 20 44).Pairwise (fun a b => a.1 < b.1) ∧
    pageChunks 32 20 44 = [(20, 12), (32, 32)] :=
  pagedChunking 5 20 44 64 (by norm_num)

/-! Characterization of the per-chunk retry loop and the outer paged loop. -/

/-- Full characterization of one run of the per-chunk retry loop: the page
primitive is invoked at least once, every invocation targets the same chunk,
all invocations before the last returned `ERR__NOT_READY` (the only locally
retried result), the loop succeeds exactly when the last invocation succeeds,
and any final result other than success / not-ready / the loop's own timeout
is the last invocation's result, returned unchanged. -/
theorem pageRetryAux_results (conf : EEPROM_Conf) (page : Nat → eERRORRESULT)
    (clock : Nat → Nat) :
    ∀ fuel pi ci startTime address size r calls pi' ci',
      size ≤ conf.PageSize →
      pageRetryAux conf page clock fuel pi ci startTime address size
        = some (r, calls, pi', ci') →
      calls ≠ [] ∧ pi' = pi + calls.length ∧
      (∀ c ∈ calls, c = (address, size)) ∧
      (∀ j, j + 1 < calls.length → page (pi + j) = ERR__NOT_READY) ∧
      (r = ERR_NONE ↔ page (pi + calls.length - 1) = ERR_NONE) ∧
      (∀ e, e ≠ ERR_NONE → e ≠ ERR__NOT_READY →
        page (pi + calls.length - 1) = e → r = e) := by
  intro fuel
  induction fuel with
  | zero =>
    intro pi ci startTime address size r calls pi' ci' hsz h
    exact absurd h (by simp [pageRetryAux])
  | succ n ih =>
    intro pi ci startTime address size r calls pi' ci' hsz h
    rw [pageRetryAux] at h
    have hop : __EEPROM_PageOp conf page pi address size = page pi := by
      unfold __EEPROM_PageOp
      rw [if_neg (by omega)]
    rw [hop] at h
    by_cases h1 : page pi = ERR_NONE
    · rw [if_pos h1] at h
      simp only [Option.some.injEq, Prod.mk.injEq] at h
      obtain ⟨rfl, rfl, rfl, rfl⟩ := h
      refine ⟨by simp, by simp, by simp, by simp, ?_, ?_⟩
      · simpa using h1
      · intro e he _ hpe
        simp at hpe
        exact absurd (hpe ▸ h1) he
    · rw [if_neg h1] at h
      by_cases h2 : page pi = ERR__NOT_READY
      · rw [if_neg (by simp [h2])] at h
        by_cases h3 :
            EEPROM_TIME_DIFF startTime (clock ci) > conf.PageWriteTime + 1
        · rw [if_pos h3] at h
          simp only [Option.some.injEq, Prod.mk.injEq] at h
          obtain ⟨rfl, rfl, rfl, rfl⟩ := h
          refine ⟨by simp, by simp, by simp, by simp, by simp [h1], ?_⟩
          intro e _ he2 hpe
          simp at hpe
          exact absurd (hpe.symm.trans h2) he2
        · rw [if_neg h3] at h
          rcases hE : pageRetryAux conf page clock n (pi + 1) (ci + 1) startTime address size
            with _ | ⟨r1, calls1, pi1, ci1⟩
          · rw [hE] at h; simp at h
          · rw [hE] at h
            simp only [Option.some.injEq, Prod.mk.injEq] at h
            obtain ⟨rfl, rfl, rfl, rfl⟩ := h
            obtain ⟨hne, hpi, hmem, hnr, hiff, hlast⟩ :=
              ih (pi + 1) (ci + 1) startTime address size r1 calls1 pi1 ci1 hsz hE
            have hlen : 0 < calls1.length := List.length_pos.mpr hne
            have hidx : pi + ((address, size) :: calls1).length - 1
                = pi + 1 + calls1.length - 1 := by
              simp only [List.length_cons]
              omega
            refine ⟨by simp, ?_, ?_, ?_, ?_, ?_⟩
            · simp only [List.length_cons]
              omega
            · intro c hc
              rcases List.mem_cons.mp hc with rfl | hc
              · rfl
              · exact hmem c hc
            · intro j hj
              simp only [List.length_cons] at hj
              rcases Nat.eq_zero_or_pos j with rfl | hjpos
              · simpa using h2
              · have : pi + j = pi + 1 + (j - 1) := by omega
                rw [this]
                exact hnr (j - 1) (by omega)
            · rw [hidx]
              exact hiff
            · intro e he1 he2 hpe
              rw [hidx] at hpe
              exact hlast e he1 he2 hpe
      · have h2' : page pi ≠ ERR__NOT_READY := h2
        rw [if_pos h2'] at h
        simp only [Option.some.injEq, Prod.mk.injEq] at h
        obtain ⟨rfl, rfl, rfl, rfl⟩ := h
        refine ⟨by simp, by simp, by simp, by simp, ?_, ?_⟩
        · simp only [List.length_cons, List.length_nil]
          constructor
          · intro hx; exact absurd hx h1
          · intro hx; simp at hx; exact absurd hx h1
        · intro e _ _ hpe
          simp at hpe
          exact hpe

/-- Full characterization of one run of the outer paged loop: every
page-primitive invocation except possibly the last returned success or
not-ready; a final invocation returning any other error makes the loop return
exactly that error (immediate abort, no further invocations); every
invocation's size is bounded by the page size (so the defensive
`size > PageSize` branch of the page primitives is unreachable); on success
the last invocation succeeded; and an empty invocation list only happens on
the trivial success. -/
theorem pagedLoopAux_results (conf : EEPROM_Conf) (page : Nat → eERRORRESULT)
    (clock : Nat → Nat) (rfuel : Nat) :
    ∀ fuel pi ci address size r calls,
      pagedLoopAux conf page clock rfuel fuel pi ci address size = some (r, calls) →
      (∀ j, j + 1 < calls.length → page (pi + j) = ERR_NONE ∨ page (pi + j) = ERR__NOT_READY) ∧
      (∀ e, e ≠ ERR_NONE → e ≠ ERR__NOT_READY → calls ≠ [] →
        page (pi + calls.length - 1) = e → r = e) ∧
      (∀ c ∈ calls, c.2 ≤ conf.PageSize) ∧
      (r = ERR_NONE → calls ≠ [] → page (pi + calls.length - 1) = ERR_NONE) ∧
      (calls = [] → r = ERR_NONE) := by
  intro fuel
  induction fuel with
  | zero =>
    intro pi ci address size r calls h
    exact absurd h (by simp [pagedLoopAux])
  | succ n ih =>
    intro pi ci address size r calls h
    simp only [pagedLoopAux] at h
    by_cases h0 : size = 0
    · rw [if_pos h0] at h
      simp only [Option.some.injEq, Prod.mk.injEq] at h
      obtain ⟨rfl, rfl⟩ := h
      refine ⟨?_, ?_, ?_, ?_, ?_⟩
      · intro j hj; simp at hj
      · intro e _ _ hcne _; exact absurd rfl hcne
      · intro c hc; simp at hc
      · intro _ hcne; exact absurd rfl hcne
      · intro _; rfl
    · rw [if_neg h0] at h
      set C := if size < conf.PageSize - (address &&& (conf.PageSize - 1)) then size
        else conf.PageSize - (address &&& (conf.PageSize - 1)) with hC
      have hCle : C ≤ conf.PageSize := by
        have := Nat.sub_le conf.PageSize (address &&& (conf.PageSize - 1))
        rw [hC]
        split <;> omega
      rcases hE : pageRetryAux conf page clock rfuel pi (ci + 1) (clock ci) address C
        with _ | ⟨r1, calls1, pi1, ci1⟩
      · rw [hE] at h
        exact absurd h (by simp)
      · rw [hE] at h
        dsimp only at h
        obtain ⟨hne1, hpi1, hmem1, hnr1, hiff1, hlast1⟩ :=
          pageRetryAux_results conf page clock rfuel pi (ci + 1) (clock ci) address C
            r1 calls1 pi1 ci1 hCle hE
        have hlen1 : 0 < calls1.length := List.length_pos.mpr hne1
        by_cases hr1 : r1 = ERR_NONE
        · rw [if_pos hr1] at h
          rcases hE2 : pagedLoopAux conf page clock rfuel n pi1 ci1 (address + C) (size - C)
            with _ | ⟨r2, calls2⟩
          · rw [hE2] at h
            exact absurd h (by simp)
          · rw [hE2] at h
            dsimp only at h
            simp only [Option.some.injEq, Prod.mk.injEq] at h
            obtain ⟨rfl, rfl⟩ := h
            obtain ⟨ih1, ih2, ih3, ih4, ih5⟩ :=
              ih pi1 ci1 (address + C) (size - C) r2 calls2 hE2
            subst hpi1
            refine ⟨?_, ?_, ?_, ?_, ?_⟩
            · intro j hj
              rw [List.length_append] at hj
              rcases Nat.lt_or_ge (j + 1) calls1.length with hj1 | hj1
              · exact Or.inr (hnr1 j hj1)
              · rcases Nat.eq_or_lt_of_le hj1 with hj2 | hj2
                · left
                  have hx : pi + j = pi + calls1.length - 1 := by omega
                  rw [hx]
                  exact hiff1.mp hr1
                · have hx : pi + j = pi + calls1.length + (j - calls1.length) := by omega
                  rw [hx]
                  exact ih1 (j - calls1.length) (by omega)
            · intro e he1 he2 _ hpe
              rw [List.length_append] at hpe
              rcases Nat.eq_zero_or_pos calls2.length with h2z | h2pos
              · have hx : pi + (calls1.length + calls2.length) - 1
                    = pi + calls1.length - 1 := by omega
                rw [hx] at hpe
                exact absurd (hpe.symm.trans (hiff1.mp hr1)) he1
              · have hx : pi + (calls1.length + calls2.length) - 1
                    = pi + calls1.length + calls2.length - 1 := by omega
                rw [hx] at hpe
                exact ih2 e he1 he2 (by simpa [← List.length_pos] using h2pos) hpe
            · intro c hc
              rcases List.mem_append.mp hc with hc | hc
              · rw [hmem1 c hc]; exact hCle
              · exact ih3 c hc
            · intro hrN _
              rw [List.length_append]
              rcases Nat.eq_zero_or_pos calls2.length with h2z | h2pos
              · have hx : pi + (calls1.length + calls2.length) - 1
                    = pi + calls1.length - 1 := by omega
                rw [hx]
                exact hiff1.mp hr1
              · have hx : pi + (calls1.length + calls2.length) - 1
                    = pi + calls1.length + calls2.length - 1 := by omega
                rw [hx]
                exact ih4 hrN (by simpa [← List.length_pos] using h2pos)
            · intro hc
              rcases List.append_eq_nil.mp hc with ⟨hc1, _⟩
              exact absurd hc1 hne1
        · rw [if_neg hr1] at h
          simp only [Option.some.injEq, Prod.mk.injEq] at h
          obtain ⟨rfl, rfl⟩ := h
          subst hpi1
          refine ⟨?_, ?_, ?_, ?_, ?_⟩
          · intro j hj; exact Or.inr (hnr1 j hj)
          · intro e he1 he2 _ hpe; exact hlast1 e he1 he2 hpe
          · intro c hc; rw [hmem1 c hc]; exact hCle
          · intro hrN _; exact absurd hrN hr1
          · intro hc; exact absurd hc hne1

/-- The spec-side chunk list does not depend on the fuel, as long as the fuel
covers the requested size. -/
theorem specChunksAux_fuel (k : Nat) :
    ∀ f1 f2 address size, size ≤ f1 → size ≤ f2 →
      specChunksAux (2 ^ k) f1 address size = specChunksAux (2 ^ k) f2 address size := by
  intro f1
  induction f1 with
  | zero =>
    intro f2 address size h1 _
    interval_cases size
    cases f2 <;> simp [specChunksAux]
  | succ n ihn =>
    intro f2 address size h1 h2
    by_cases h0 : size = 0
    · subst h0
      cases f2 <;> simp [specChunksAux]
    · obtain ⟨m, rfl⟩ : ∃ m, f2 = m + 1 := ⟨f2 - 1, by omega⟩
      have hrem : 0 < 2 ^ k - address % 2 ^ k :=
        Nat.sub_pos_of_lt (Nat.mod_lt address (Nat.two_pow_pos k))
      have hpos : 0 < min size (2 ^ k - address % 2 ^ k) :=
        lt_min (Nat.pos_of_ne_zero h0) hrem
      have hle : min size (2 ^ k - address % 2 ^ k) ≤ size := Nat.min_le_left _ _
      simp only [specChunksAux, h0, if_false]
      rw [ihn m _ _ (by omega) (by omega)]

/-- When every page-primitive invocation succeeds, the paged loop succeeds and
issues exactly the chunk sequence of the paging computation (one invocation
per chunk, no retries). -/
theorem pagedLoopAux_all_success (conf : EEPROM_Conf) (clock : Nat → Nat)
    (rfuel k : Nat) (hr : 1 ≤ rfuel) (hp : conf.PageSize = 2 ^ k) :
    ∀ fuel pi ci address size, size < fuel →
      pagedLoopAux conf (fun _ => ERR_NONE) clock rfuel fuel pi ci address size
        = some (ERR_NONE, pageChunksAux conf.PageSize fuel address size) := by
  obtain ⟨m, rfl⟩ : ∃ m, rfuel = m + 1 := ⟨rfuel - 1, by omega⟩
  intro fuel
  induction fuel with
  | zero => intro pi ci address size hsz; omega
  | succ n ihn =>
    intro pi ci address size hsz
    by_cases h0 : size = 0
    · simp [pagedLoopAux, pageChunksAux, h0]
    · simp only [pagedLoopAux, pageChunksAux, if_neg h0]
      set C := if size < conf.PageSize - (address &&& (conf.PageSize - 1)) then size
        else conf.PageSize - (address &&& (conf.PageSize - 1)) with hC
      have hRpos : 0 < conf.PageSize - (address &&& (conf.PageSize - 1)) := by
        rw [hp]
        have h1 : address &&& (2 ^ k - 1) < 2 ^ k :=
          Nat.and_lt_two_pow address (by have := Nat.two_pow_pos k; omega)
        omega
      have hCpos : 0 < C := by rw [hC]; split <;> omega
      have hCle : C ≤ conf.PageSize := by
        have := Nat.sub_le conf.PageSize (address &&& (conf.PageSize - 1))
        rw [hC]; split <;> omega
      have hinner : pageRetryAux conf (fun _ => ERR_NONE) clock (m + 1) pi (ci + 1)
          (clock ci) address C = some (ERR_NONE, [(address, C)], pi + 1, ci + 1) := by
        simp [pageRetryAux, __EEPROM_PageOp, Nat.not_lt.mpr hCle]
      rw [hinner]
      dsimp only
      rw [if_pos rfl]
      rw [ihn (pi + 1) (ci + 1) (address + C) (size - C) (by omega)]
      dsimp only
      rw [List.singleton_append]

/-- C2: `EEPROM_ReadData` / `EEPROM_WriteData` with
`address + size > TotalByteSize` return `ERR__OUT_OF_MEMORY` with zero page
transfers issued; with `address + size = TotalByteSize` and a transport that
succeeds, both proceed to issue the full chunk sequence and succeed. -/
theorem boundsCheck (conf : EEPROM_Conf) (page : Nat → eERRORRESULT) (clock : Nat → Nat)
    (rfuel fuel address size k : Nat) :
    (address + size > conf.TotalByteSize →
      EEPROM_ReadData conf page clock rfuel fuel address size
          = some (ERR__OUT_OF_MEMORY, []) ∧
      EEPROM_WriteData conf page clock rfuel fuel address size
          = some (ERR__OUT_OF_MEMORY, [])) ∧
    (address + size = conf.TotalByteSize → conf.PageSize = 2 ^ k → 1 ≤ rfuel →
      EEPROM_ReadData conf (fun _ => ERR_NONE) clock rfuel (size + 1) address size
          = some (ERR_NONE, pageChunks (2 ^ k) address size) ∧
      EEPROM_WriteData conf (fun _ => ERR_NONE) clock rfuel (size + 1) address size
          = some (ERR_NONE, pageChunks (2 ^ k) address size)) := by
  constructor
  · intro hgt
    constructor
    · unfold EEPROM_ReadData; rw [if_pos hgt]
    · unfold EEPROM_WriteData; rw [if_pos hgt]
  · intro hEq hp hr
    have hno : ¬ address + size > conf.TotalByteSize := by omega
    have hloop := pagedLoopAux_all_success conf clock rfuel k hr hp
      (size + 1) 0 0 address size (by omega)
    have hfuel : pageChunksAux conf.PageSize (size + 1) address size
        = pageChunks (2 ^ k) address size := by
      rw [hp, pageChunks, pageChunksAux_eq_specChunksAux, pageChunksAux_eq_specChunksAux]
      exact specChunksAux_fuel k (size + 1) size address size (by omega) (Nat.le_refl _)
    constructor
    · unfold EEPROM_ReadData; rw [if_neg hno, hloop, hfuel]
    · unfold EEPROM_WriteData; rw [if_neg hno, hloop, hfuel]

/-- Witness for `boundsCheck`: on an 8 KiB, 32-byte-page device,
`address + size = TotalByteSize + 1` is rejected with no bus activity, and
`address + size = TotalByteSize` succeeds with the full chunk sequence. -/
theorem boundsCheck_witness :
    (EEPROM_ReadData ⟨0xA0, 2, 5, 32, 0, 8192⟩ (fun _ => eERRORRESULT.ERR_NONE)
        (fun _ => 0) 1 45 8149 44 = some (eERRORRESULT.ERR__OUT_OF_MEMORY, []) ∧
      EEPROM_WriteData ⟨0xA0, 2, 5, 32, 0, 8192⟩ (fun _ => eERRORRESULT.ERR_NONE)
        (fun _ => 0) 1 45 8149 44 = some (eERRORRESULT.ERR__OUT_OF_MEMORY, [])) ∧
    (EEPROM_ReadData ⟨0xA0, 2, 5, 32, 0, 8192⟩ (fun _ => eERRORRESULT.ERR_NONE)
        (fun _ => 0) 1 45 8148 44 = some (eERRORRESULT.ERR_NONE, pageChunks (2 ^ 5) 8148 44) ∧
      EEPROM_WriteData ⟨0xA0, 2, 5, 32, 0, 8192⟩ (fun _ => eERRORRESULT.ERR_NONE)
        (fun _ => 0) 1 45 8148 44 = some (eERRORRESULT.ERR_NONE, pageChunks (2 ^ 5) 8148 44)) :=
  ⟨(boundsCheck ⟨0xA0, 2, 5, 32, 0, 8192⟩ (fun _ => eERRORRESULT.ERR_NONE)
      (fun _ => 0) 1 45 8149 44 5).1 (by norm_num),
    (boundsCheck ⟨0xA0, 2, 5, 32, 0, 8192⟩ (fun _ => eERRORRESULT.ERR_NONE)
      (fun _ => 0) 1 45 8148 44 5).2 (by norm_num) (by norm_num) (by norm_num)⟩

/-- C6: in the paging loops of `EEPROM_ReadData` / `EEPROM_WriteData`,
`ERR__NOT_READY` is the only page-transfer result that is locally retried:
every invocation before the last returned success or not-ready, and a final
invocation returning any result other than success or not-ready makes the
whole call return exactly that result, with no further page transfers. -/
theorem errorPropagation (conf : EEPROM_Conf) (page : Nat → eERRORRESULT)
    (clock : Nat → Nat) (rfuel fuel address size : Nat) (r : eERRORRESULT)
    (calls : List (Nat × Nat))
    (h : EEPROM_ReadData conf page clock rfuel fuel address size = some (r, calls) ∨
      EEPROM_WriteData conf page clock rfuel fuel address size = some (r, calls)) :
    (∀ j, j + 1 < calls.length → page j = ERR_NONE ∨ page j = ERR__NOT_READY) ∧
    (∀ e, e ≠ ERR_NONE → e ≠ ERR__NOT_READY → calls ≠ [] →
      page (calls.length - 1) = e → r = e) := by
  have hrun : pagedLoopAux conf page clock rfuel fuel 0 0 address size = some (r, calls)
      ∨ (r = ERR__OUT_OF_MEMORY ∧ calls = []) := by
    rcases h with h | h
    · unfold EEPROM_ReadData at h
      split at h
      · simp only [Option.some.injEq, Prod.mk.injEq] at h
        exact Or.inr ⟨h.1.symm, h.2.symm⟩
      · exact Or.inl h
    · unfold EEPROM_WriteData at h
      split at h
      · simp only [Option.some.injEq, Prod.mk.injEq] at h
        exact Or.inr ⟨h.1.symm, h.2.symm⟩
      · exact Or.inl h
  rcases hrun with hrun | ⟨rfl, rfl⟩
  · obtain ⟨c1, c2, _, _, _⟩ :=
      pagedLoopAux_results conf page clock rfuel fuel 0 0 address size r calls hrun
    constructor
    · intro j hj; simpa using c1 j hj
    · intro e he1 he2 hne hpe
      exact c2 e he1 he2 hne (by simpa using hpe)
  · exact ⟨by simp, fun e _ _ hne _ => absurd rfl hne⟩

/-- Witness for `errorPropagation`: a run where the second chunk's transfer
fails with a bus error, which is returned unchanged as the final result. -/
theorem errorPropagation_witness :
    (EEPROM_WriteData ⟨0xA0, 2, 5, 32, 0, 8192⟩
        (fun i => if i = 0 then eERRORRESULT.ERR_NONE else eERRORRESULT.ERR__I2C_COMM_ERROR)
        (fun _ => 0) 1 45 20 44
      = some (eERRORRESULT.ERR__I2C_COMM_ERROR, [(20, 12), (32, 32)])) ∧
    (eERRORRESULT.ERR__I2C_COMM_ERROR = eERRORRESULT.ERR__I2C_COMM_ERROR) := by
  have hrun : EEPROM_WriteData ⟨0xA0, 2, 5, 32, 0, 8192⟩
      (fun i => if i = 0 then eERRORRESULT.ERR_NONE else eERRORRESULT.ERR__I2C_COMM_ERROR)
      (fun _ => 0) 1 45 20 44
      = some (eERRORRESULT.ERR__I2C_COMM_ERROR, [(20, 12), (32, 32)]) := by decide
  refine ⟨hrun, ?_⟩
  exact (errorPropagation ⟨0xA0, 2, 5, 32, 0, 8192⟩
      (fun i => if i = 0 then eERRORRESULT.ERR_NONE else eERRORRESULT.ERR__I2C_COMM_ERROR)
      (fun _ => 0) 1 45 20 44 eERRORRESULT.ERR__I2C_COMM_ERROR [(20, 12), (32, 32)]
      (Or.inr hrun)).2
    eERRORRESULT.ERR__I2C_COMM_ERROR (by decide) (by decide) (by decide) (by decide)

/-- C9: under every run of `EEPROM_ReadData` / `EEPROM_WriteData`, every page
primitive invocation has size at most `PageSize`, so the defensive
`size > PageSize` branch (`ERR__OUT_OF_RANGE`) of `__EEPROM_ReadPage` /
`__EEPROM_WritePage` never fires: the primitive reduces to its transport
transfer on every invocation issued by the public operations. -/
theorem pageGuardUnreachable (conf : EEPROM_Conf) (page : Nat → eERRORRESULT)
    (clock : Nat → Nat) (rfuel fuel address size : Nat) (r : eERRORRESULT)
    (calls : List (Nat × Nat))
    (h : EEPROM_ReadData conf page clock rfuel fuel address size = some (r, calls) ∨
      EEPROM_WriteData conf page clock rfuel fuel address size = some (r, calls)) :
    ∀ c ∈ calls, c.2 ≤ conf.PageSize ∧
      ∀ pi, __EEPROM_PageOp conf page pi c.1 c.2 = page pi := by
  have hrun : pagedLoopAux conf page clock rfuel fuel 0 0 address size = some (r, calls)
      ∨ calls = [] := by
    rcases h with h | h
    · unfold EEPROM_ReadData at h
      split at h
      · simp only [Option.some.injEq, Prod.mk.injEq] at h
        exact Or.inr h.2.symm
      · exact Or.inl h
    · unfold EEPROM_WriteData at h
      split at h
      · simp only [Option.some.injEq, Prod.mk.injEq] at h
        exact Or.inr h.2.symm
      · exact Or.inl h
  rcases hrun with hrun | rfl
  · obtain ⟨_, _, c3, _, _⟩ :=
      pagedLoopAux_results conf page clock rfuel fuel 0 0 address size r calls hrun
    intro c hc
    refine ⟨c3 c hc, ?_⟩
    intro pi
    unfold __EEPROM_PageOp
    rw [if_neg (Nat.not_lt.mpr (c3 c hc))]
  · intro c hc; simp at hc

/-- Witness for `pageGuardUnreachable`: all chunks of a concrete successful
run stay within the page size. -/
theorem pageGuardUnreachable_witness :
    (EEPROM_WriteData ⟨0xA0, 2, 5, 32, 0, 8192⟩ (fun _ => eERRORRESULT.ERR_NONE)
        (fun _ => 0) 1 45 20 44 = some (eERRORRESULT.ERR_NONE, [(20, 12), (32, 32)])) ∧
    ((20, 12) : Nat × Nat).2 ≤ (⟨0xA0, 2, 5, 32, 0, 8192⟩ : EEPROM_Conf).PageSize := by
  have hrun : EEPROM_WriteData ⟨0xA0, 2, 5, 32, 0, 8192⟩ (fun _ => eERRORRESULT.ERR_NONE)
      (fun _ => 0) 1 45 20 44 = some (eERRORRESULT.ERR_NONE, [(20, 12), (32, 32)]) := by
    decide
  refine ⟨hrun, ?_⟩
  exact (pageGuardUnreachable ⟨0xA0, 2, 5, 32, 0, 8192⟩ (fun _ => eERRORRESULT.ERR_NONE)
      (fun _ => 0) 1 45 20 44 eERRORRESULT.ERR_NONE [(20, 12), (32, 32)]
      (Or.inr hrun) (20, 12) (by decide)).1

/-! Write-settle wait loops: the timeout boundary. -/

/-- Counterexample to C3 as stated: with `PageWriteTime = 5` (so
`maxWaitMs = 5`), a device ready after 2 polls, and a clock whose every tick
after the start reads 6, the not-ready check at the first iteration sees an
elapsed time of exactly `maxWaitMs + 1 = 6` while the device is not ready
(`2 ≤ 0` is false), yet the wait loop does not time out: it polls again and
returns success, because the code's comparison is
`elapsed > PageWriteTime + 1`, which is false at elapsed `= maxWaitMs + 1`. -/
theorem waitBoundary_counterexample :
    EEPROM_WaitEndOfWrite ⟨0xA0, 2, 5, 32, 0, 8192⟩ (fun i => decide (2 ≤ i))
        (fun i => if i = 0 then 0 else 6) 10 = some eERRORRESULT.ERR_NONE ∧
    EEPROM_TIME_DIFF ((fun i => if i = 0 then 0 else 6) 0)
        ((fun i => if i = 0 then 0 else 6) 1)
      = (⟨0xA0, 2, 5, 32, 0, 8192⟩ : EEPROM_Conf).PageWriteTime + 1 ∧
    (fun i => decide (2 ≤ i)) 0 = false := by
  refine ⟨by decide, by decide, by decide⟩

/-- If the device becomes ready at poll `N` and no earlier elapsed-time check
exceeded `PageWriteTime + 1`, the wait loop returns success. The clock-call
index runs one ahead of the poll index. -/
theorem waitAux_success (conf : EEPROM_Conf) (N : Nat) (clock : Nat → Nat) :
    ∀ fuel ri start, N - ri < fuel →
      (∀ i, ri ≤ i → i < N →
        ¬ (EEPROM_TIME_DIFF start (clock (i + 1)) > conf.PageWriteTime + 1)) →
      EEPROM_WaitEndOfWriteAux conf (fun i => decide (N ≤ i)) clock fuel ri (ri + 1) start
        = some ERR_NONE := by
  intro fuel
  induction fuel with
  | zero => intro ri start h _; omega
  | succ n ihn =>
    intro ri start h hok
    by_cases hN : N ≤ ri
    · simp [EEPROM_WaitEndOfWriteAux, hN]
    · have hstep := hok ri (Nat.le_refl _) (by omega)
      simp only [EEPROM_WaitEndOfWriteAux, decide_eq_true_eq, if_neg hN,
        if_neg hstep]
      exact ihn (ri + 1) start (by omega) (fun i hi1 hi2 => hok i (by omega) hi2)

/-- If the device is still not ready at poll `j` and the check at iteration
`j` is the first whose elapsed time exceeds `PageWriteTime + 1`, the wait loop
returns `ERR__DEVICE_TIMEOUT`. -/
theorem waitAux_timeout (conf : EEPROM_Conf) (N : Nat) (clock : Nat → Nat) :
    ∀ fuel ri start j, ri ≤ j → j < N → j - ri < fuel →
      (∀ i, ri ≤ i → i < j →
        ¬ (EEPROM_TIME_DIFF start (clock (i + 1)) > conf.PageWriteTime + 1)) →
      EEPROM_TIME_DIFF start (clock (j + 1)) > conf.PageWriteTime + 1 →
      EEPROM_WaitEndOfWriteAux conf (fun i => decide (N ≤ i)) clock fuel ri (ri + 1) start
        = some ERR__DEVICE_TIMEOUT := by
  intro fuel
  induction fuel with
  | zero => intro ri start j h1 h2 h3 _ _; omega
  | succ n ihn =>
    intro ri start j h1 h2 h3 hok hfire
    have hN : ¬ N ≤ ri := by omega
    rcases Nat.eq_or_lt_of_le h1 with rfl | hlt
    · simp only [EEPROM_WaitEndOfWriteAux, decide_eq_true_eq, if_neg hN, if_pos hfire]
    · have hstep := hok ri (Nat.le_refl _) (by omega)
      simp only [EEPROM_WaitEndOfWriteAux, decide_eq_true_eq, if_neg hN, if_neg hstep]
      exact ihn (ri + 1) start j (by omega) h2 (by omega)
        (fun i hi1 hi2 => hok i (by omega) hi2) hfire

/-- C3 amended: in the write-settle wait loops, the timeout comparison is
`elapsed > maxWaitMs + 1` with `maxWaitMs = PageWriteTime`. The poll loop of
`EEPROM_WaitEndOfWrite` returns success whenever the device becomes ready
before any check exceeds `maxWaitMs + 1`, and returns `ERR__DEVICE_TIMEOUT` at
the first not-ready check whose elapsed time strictly exceeds `maxWaitMs + 1`;
at the boundary, elapsed times of exactly `maxWaitMs` and of exactly
`maxWaitMs + 1` do NOT produce the timeout while `maxWaitMs + 2` does; and the
per-chunk retry loops of `EEPROM_ReadData`/`EEPROM_WriteData` time out under
exactly the same comparison. -/
theorem waitTimeout_amended (conf : EEPROM_Conf) (N : Nat) (clock : Nat → Nat)
    (fuel : Nat) :
    (N < fuel →
      (∀ i, i < N →
        ¬ (EEPROM_TIME_DIFF (clock 0) (clock (i + 1)) > conf.PageWriteTime + 1)) →
      EEPROM_WaitEndOfWrite conf (fun i => decide (N ≤ i)) clock fuel = some ERR_NONE) ∧
    (∀ j, j < N → j < fuel →
      (∀ i, i < j →
        ¬ (EEPROM_TIME_DIFF (clock 0) (clock (i + 1)) > conf.PageWriteTime + 1)) →
      EEPROM_TIME_DIFF (clock 0) (clock (j + 1)) > conf.PageWriteTime + 1 →
      EEPROM_WaitEndOfWrite conf (fun i => decide (N ≤ i)) clock fuel
        = some ERR__DEVICE_TIMEOUT) ∧
    (∀ s, ¬ (EEPROM_TIME_DIFF s (s + conf.PageWriteTime) > conf.PageWriteTime + 1) ∧
      ¬ (EEPROM_TIME_DIFF s (s + (conf.PageWriteTime + 1)) > conf.PageWriteTime + 1) ∧
      EEPROM_TIME_DIFF s (s + (conf.PageWriteTime + 2)) > conf.PageWriteTime + 1) ∧
    (∀ (page : Nat → eERRORRESULT) (rfuel pi ci start a c : Nat),
      c ≤ conf.PageSize → page pi = ERR__NOT_READY →
      EEPROM_TIME_DIFF start (clock ci) > conf.PageWriteTime + 1 →
      pageRetryAux conf page clock (rfuel + 1) pi ci start a c
        = some (ERR__DEVICE_TIMEOUT, [(a, c)], pi + 1, ci + 1)) := by
  refine ⟨?_, ?_, ?_, ?_⟩
  · intro hfuel hok
    exact waitAux_success conf N clock fuel 0 (clock 0) (by omega)
      (fun i _ hi => hok i hi)
  · intro j hj hjf hok hfire
    exact waitAux_timeout conf N clock fuel 0 (clock 0) j (Nat.zero_le _) hj (by omega)
      (fun i _ hi => hok i hi) hfire
  · intro s
    refine ⟨?_, ?_, ?_⟩
    · unfold EEPROM_TIME_DIFF
      rw [if_pos (by omega)]
      omega
    · unfold EEPROM_TIME_DIFF
      rw [if_pos (by omega)]
      omega
    · unfold EEPROM_TIME_DIFF
      rw [if_pos (by omega)]
      omega
  · intro page rfuel pi ci start a c hcle hnr hfire
    have hop : __EEPROM_PageOp conf page pi a c = page pi := by
      unfold __EEPROM_PageOp
      rw [if_neg (Nat.not_lt.mpr hcle)]
    rw [pageRetryAux, hop, hnr]
    rw [if_neg (by simp), if_neg (by simp), if_pos hfire]

/-- Witness for `waitTimeout_amended`: success when the clock stays within the
bound, timeout when a check exceeds it. -/
theorem waitTimeout_amended_witness :
    EEPROM_WaitEndOfWrite ⟨0xA0, 2, 5, 32, 0, 8192⟩ (fun i => decide (2 ≤ i))
        (fun i => i) 10 = some eERRORRESULT.ERR_NONE ∧
    EEPROM_WaitEndOfWrite ⟨0xA0, 2, 5, 32, 0, 8192⟩ (fun i => decide (2 ≤ i))
        (fun i => if i = 0 then 0 else 100) 10 = some eERRORRESULT.ERR__DEVICE_TIMEOUT ∧
    pageRetryAux ⟨0xA0, 2, 5, 32, 0, 8192⟩ (fun _ => eERRORRESULT.ERR__NOT_READY)
        (fun i => if i = 0 then 0 else 100) 1 0 1 0 20 12
      = some (eERRORRESULT.ERR__DEVICE_TIMEOUT, [(20, 12)], 1, 2) := by
  refine ⟨?_, ?_, ?_⟩
  · exact (waitTimeout_amended ⟨0xA0, 2, 5, 32, 0, 8192⟩ 2 (fun i => i) 10).1
      (by norm_num) (by intro i hi; interval_cases i <;> decide)
  · exact (waitTimeout_amended ⟨0xA0, 2, 5, 32, 0, 8192⟩ 2
      (fun i => if i = 0 then 0 else 100) 10).2.1 0
      (by norm_num) (by norm_num) (by intro i hi; omega) (by decide)
  · exact (waitTimeout_amended ⟨0xA0, 2, 5, 32, 0, 8192⟩ 2
      (fun i => if i = 0 then 0 else 100) 10).2.2.2
      (fun _ => eERRORRESULT.ERR__NOT_READY) 0 0 1 0 20 12
      (by decide) (by decide) (by decide)

/-! EERAM 47x04 store operation. -/

/-- If the status reads succeed and the array-modified bit clears at read `N`
with no earlier elapsed-time check exceeding `STORE_TIMEOUT + 1`, the store
poll loop returns success. -/
theorem storeWaitAux_success (N : Nat) (clock : Nat → Nat) :
    ∀ fuel ri start, N - ri < fuel →
      (∀ i, ri ≤ i → i < N →
        ¬ (EERAM47x04_TIME_DIFF start (clock (i + 1)) > EERAM47x04_STORE_TIMEOUT + 1)) →
      EERAM47x04_StoreWaitAux
          (fun i => (ERR_NONE, if i < N then EERAM47x04_ARRAY_MODIFIED else 0))
          clock fuel ri (ri + 1) start = some ERR_NONE := by
  intro fuel
  induction fuel with
  | zero => intro ri start h _; omega
  | succ n ihn =>
    intro ri start h hok
    by_cases hN : ri < N
    · have hstep := hok ri (Nat.le_refl _) hN
      simp only [EERAM47x04_StoreWaitAux, if_pos hN]
      rw [if_neg (by simp), if_neg (by decide), if_neg hstep]
      exact ihn (ri + 1) start (by omega) (fun i hi1 hi2 => hok i (by omega) hi2)
    · simp only [EERAM47x04_StoreWaitAux, if_neg hN]
      rw [if_neg (by simp), if_pos (by simp [Nat.zero_and])]

/-- If the status reads succeed but the array-modified bit never clears, the
store poll loop returns `ERR__DEVICE_TIMEOUT` at the first check whose elapsed
time exceeds `STORE_TIMEOUT + 1`. -/
theorem storeWaitAux_timeout (clock : Nat → Nat) :
    ∀ fuel ri start j, ri ≤ j → j - ri < fuel →
      (∀ i, ri ≤ i → i < j →
        ¬ (EERAM47x04_TIME_DIFF start (clock (i + 1)) > EERAM47x04_STORE_TIMEOUT + 1)) →
      EERAM47x04_TIME_DIFF start (clock (j + 1)) > EERAM47x04_STORE_TIMEOUT + 1 →
      EERAM47x04_StoreWaitAux (fun _ => (ERR_NONE, EERAM47x04_ARRAY_MODIFIED))
          clock fuel ri (ri + 1) start = some ERR__DEVICE_TIMEOUT := by
  intro fuel
  induction fuel with
  | zero => intro ri start j h1 h2 _ _; omega
  | succ n ihn =>
    intro ri start j h1 h2 hok hfire
    rcases Nat.eq_or_lt_of_le h1 with rfl | hlt
    · simp only [EERAM47x04_StoreWaitAux]
      rw [if_neg (by simp), if_neg (by decide), if_pos hfire]
    · have hstep := hok ri (Nat.le_refl _) (by omega)
      simp only [EERAM47x04_StoreWaitAux]
      rw [if_neg (by simp), if_neg (by decide), if_neg hstep]
      exact ihn (ri + 1) start j (by omega) (by omega)
        (fun i hi1 hi2 => hok i (by omega) hi2) hfire

/-- C8: `EERAM47x04_StoreSRAMtoEEPROM(forceStore = true, waitEndOfStore =
true)` issues exactly one command-register write, the STORE command `0x33` to
register `0x55`, then polls the status register; it returns success once the
array-modified (busy) bit clears before the deadline, and returns
`ERR__DEVICE_TIMEOUT` at the first poll whose elapsed simulated time exceeds
`EERAM47x04_STORE_TIMEOUT + 1` milliseconds when the busy bit never clears. -/
theorem storeSRAMtoEEPROM_protocol (N : Nat) (clock : Nat → Nat) (fuel : Nat) :
    (N < fuel →
      (∀ i, i < N →
        ¬ (EERAM47x04_TIME_DIFF (clock 0) (clock (i + 1)) > EERAM47x04_STORE_TIMEOUT + 1)) →
      EERAM47x04_StoreSRAMtoEEPROM true true
          (fun i => (ERR_NONE, if i < N then EERAM47x04_ARRAY_MODIFIED else 0))
          ERR_NONE clock fuel
        = some (ERR_NONE, [(EERAM47x04_COMMAND_REGISTER_ADDR, EERAM47x04_STORE_COMMAND)])) ∧
    (∀ j, j < fuel →
      (∀ i, i < j →
        ¬ (EERAM47x04_TIME_DIFF (clock 0) (clock (i + 1)) > EERAM47x04_STORE_TIMEOUT + 1)) →
      EERAM47x04_TIME_DIFF (clock 0) (clock (j + 1)) > EERAM47x04_STORE_TIMEOUT + 1 →
      EERAM47x04_StoreSRAMtoEEPROM true true
          (fun _ => (ERR_NONE, EERAM47x04_ARRAY_MODIFIED)) ERR_NONE clock fuel
        = some (ERR__DEVICE_TIMEOUT,
            [(EERAM47x04_COMMAND_REGISTER_ADDR, EERAM47x04_STORE_COMMAND)])) := by
  constructor
  · intro hfuel hok
    have hw := storeWaitAux_success N clock fuel 0 (clock 0) (by omega)
      (fun i _ hi => hok i hi)
    rw [Nat.zero_add] at hw
    have hred : EERAM47x04_StoreSRAMtoEEPROM true true
        (fun i => (ERR_NONE, if i < N then EERAM47x04_ARRAY_MODIFIED else 0))
        ERR_NONE clock fuel
        = match EERAM47x04_StoreWaitAux
            (fun i => (ERR_NONE, if i < N then EERAM47x04_ARRAY_MODIFIED else 0))
            clock fuel 0 1 (clock 0) with
          | none => none
          | some r =>
            some (r, [(EERAM47x04_COMMAND_REGISTER_ADDR, EERAM47x04_STORE_COMMAND)]) := rfl
    rw [hred, hw]
  · intro j hj hok hfire
    have hw := storeWaitAux_timeout clock fuel 0 (clock 0) j (Nat.zero_le _) (by omega)
      (fun i _ hi => hok i hi) hfire
    rw [Nat.zero_add] at hw
    have hred : EERAM47x04_StoreSRAMtoEEPROM true true
        (fun _ => (ERR_NONE, EERAM47x04_ARRAY_MODIFIED)) ERR_NONE clock fuel
        = match EERAM47x04_StoreWaitAux (fun _ => (ERR_NONE, EERAM47x04_ARRAY_MODIFIED))
            clock fuel 0 1 (clock 0) with
          | none => none
          | some r =>
            some (r, [(EERAM47x04_COMMAND_REGISTER_ADDR, EERAM47x04_STORE_COMMAND)]) := rfl
    rw [hred, hw]

/-- Witness for `storeSRAMtoEEPROM_protocol`: busy clears at the third read
under an in-bound clock; busy never clears under a clock that jumps past the
deadline. -/
theorem storeSRAMtoEEPROM_protocol_witness :
    EERAM47x04_StoreSRAMtoEEPROM true true
        (fun i => (eERRORRESULT.ERR_NONE, if i < 2 then EERAM47x04_ARRAY_MODIFIED else 0))
        eERRORRESULT.ERR_NONE (fun i => i) 10
      = some (eERRORRESULT.ERR_NONE,
          [(EERAM47x04_COMMAND_REGISTER_ADDR, EERAM47x04_STORE_COMMAND)]) ∧
    EERAM47x04_StoreSRAMtoEEPROM true true
        (fun _ => (eERRORRESULT.ERR_NONE, EERAM47x04_ARRAY_MODIFIED))
        eERRORRESULT.ERR_NONE (fun i => if i = 0 then 0 else 100) 10
      = some (eERRORRESULT.ERR__DEVICE_TIMEOUT,
          [(EERAM47x04_COMMAND_REGISTER_ADDR, EERAM47x04_STORE_COMMAND)]) := by
  constructor
  · exact (storeSRAMtoEEPROM_protocol 2 (fun i => i) 10).1 (by norm_num)
      (by intro i hi; interval_cases i <;> decide)
  · exact (storeSRAMtoEEPROM_protocol 2 (fun i => if i = 0 then 0 else 100) 10).2 0
      (by norm_num) (by intro i hi; omega) (by decide)

/-! Address codec: bitwise helper lemmas. -/

/-- Masking with a shifted all-ones mask extracts a contiguous bit field, in
div/mod terms. -/
theorem land_mask_mul (x a b : Nat) :
    x &&& ((2 ^ a - 1) * 2 ^ b) = x / 2 ^ b % 2 ^ a * 2 ^ b := by
  apply Nat.eq_of_testBit_eq
  intro i
  rw [← Nat.shiftLeft_eq (2 ^ a - 1) b, ← Nat.shiftRight_eq_div_pow x b,
    ← Nat.shiftLeft_eq (x >>> b % 2 ^ a) b]
  simp only [Nat.testBit_and, Nat.testBit_shiftLeft, Nat.testBit_two_pow_sub_one,
    Nat.testBit_mod_two_pow, Nat.testBit_shiftRight]
  by_cases hbi : b ≤ i
  · have hadd : b + (i - b) = i := by omega
    simp only [hbi, decide_True, Bool.true_and, hadd]
    cases hx : x.testBit i <;> simp
  · simp [hbi]

/-- Value of `AddrBytes` in arithmetic form:
`AddressType & 0x0F = AddressType mod 16`. -/
theorem AddrBytes_eq (conf : EEPROM_Conf) : AddrBytes conf = conf.AddressType % 16 := by
  unfold AddrBytes EEPROM_ADDRESS_Bytes_MASK
  rw [show (0x0F : Nat) = 2 ^ 4 - 1 from by norm_num, Nat.and_pow_two_sub_one_eq_mod]

/-- Value of `AddrTypeAx` in arithmetic form:
`(AddressType & 0xE0) >> 4 = AddressType / 32 mod 8 * 2`. -/
theorem AddrTypeAx_eq (conf : EEPROM_Conf) :
    AddrTypeAx conf = conf.AddressType / 32 % 8 * 2 := by
  unfold AddrTypeAx EEPROM_ADDRESS_plus_Ax_MASK
  rw [show (0xE0 : Nat) = (2 ^ 3 - 1) * 2 ^ 5 from by norm_num, land_mask_mul,
    Nat.shiftRight_eq_div_pow]
  omega

/-- The `AddrTypeAx` mask only ever has bits 1..3 set: it is invariant under
masking with `0xFE`. -/
theorem AddrTypeAx_and_254 (conf : EEPROM_Conf) :
    AddrTypeAx conf &&& 0xFE = AddrTypeAx conf := by
  rw [AddrTypeAx_eq, show (0xFE : Nat) = (2 ^ 7 - 1) * 2 ^ 1 from by norm_num,
    land_mask_mul]
  omega

/-- The `AddrTypeAx` mask fits in a byte. -/
theorem AddrTypeAx_lt_256 (conf : EEPROM_Conf) : AddrTypeAx conf < 256 := by
  rw [AddrTypeAx_eq]
  omega

/-- The chip-select byte restricted to the `AddrTypeAx` positions carries
exactly the folded high address bits: the fixed base (assumed clear on those
positions) and the strap bits (masked out of them by construction) do not
contribute. -/
theorem chipByte_fold (C strap ax ab e : Nat) (hC : C &&& ax = 0)
    (h254 : ax &&& 0xFE = ax) (hax : ax < 256) :
    __EEPROM_ChipAddrByte C strap ax ab e &&& ax = (e >>> (8 * ab - 1)) &&& ax := by
  apply Nat.eq_of_testBit_eq
  intro i
  simp only [__EEPROM_ChipAddrByte, I2C_WRITE_ANDMASK, Nat.testBit_and, Nat.testBit_or,
    Nat.testBit_xor]
  by_cases haxi : ax.testBit i
  · have h254i : (0xFE : Nat).testBit i = true := by
      have h := congrArg (fun x => x.testBit i) h254
      simp only [Nat.testBit_and] at h
      rw [haxi] at h
      simpa using h
    have hCi : C.testBit i = false := by
      have h := congrArg (fun x => x.testBit i) hC
      simp only [Nat.testBit_and, Nat.zero_testBit] at h
      rw [haxi] at h
      simpa using h
    have hi8 : i < 8 := by
      by_contra hge
      have hlt : ax < 2 ^ i := by
        calc ax < 2 ^ 8 := hax
        _ ≤ 2 ^ i := Nat.pow_le_pow_right (by norm_num) (by omega)
      rw [Nat.testBit_lt_two_pow hlt] at haxi
      exact absurd haxi (by simp)
    have h255i : (0xFF : Nat).testBit i = true := by
      rw [show (0xFF : Nat) = 2 ^ 8 - 1 from by norm_num, Nat.testBit_two_pow_sub_one]
      simp [hi8]
    rw [haxi, h254i, hCi, h255i]
    simp
  · simp only [Bool.not_eq_true] at haxi
    simp [haxi]

/-- The chip-select byte outside the `AddrTypeAx` positions (and outside the
R/W bit) carries exactly the fixed base address OR'd with the strap bits that
are not folded over. -/
theorem chipByte_rest (C strap ax ab e : Nat)
    (h254 : ax &&& 0xFE = ax) :
    __EEPROM_ChipAddrByte C strap ax ab e &&& (0xFE ^^^ ax)
      = (C ||| (strap &&& (0xFF ^^^ ax))) &&& (0xFE ^^^ ax) := by
  apply Nat.eq_of_testBit_eq
  intro i
  simp only [__EEPROM_ChipAddrByte, I2C_WRITE_ANDMASK, Nat.testBit_and, Nat.testBit_or,
    Nat.testBit_xor]
  by_cases haxi : ax.testBit i
  · have h254i : (0xFE : Nat).testBit i = true := by
      have h := congrArg (fun x => x.testBit i) h254
      simp only [Nat.testBit_and] at h
      rw [haxi] at h
      simpa using h
    rw [haxi, h254i]
    simp
  · simp only [Bool.not_eq_true] at haxi
    rw [haxi]
    cases h254i : (0xFE : Nat).testBit i <;> simp [h254i]

/-- The chip-select byte always has its R/W bit (bit 0) cleared: the byte is a
write address. -/
theorem chipByte_bit0 (C strap ax ab e : Nat) :
    __EEPROM_ChipAddrByte C strap ax ab e % 2 = 0 := by
  rw [Nat.mod_two_eq_zero_iff_testBit_zero]
  simp only [__EEPROM_ChipAddrByte, I2C_WRITE_ANDMASK, Nat.testBit_and]
  rw [show (0xFE : Nat).testBit 0 = false from by decide]
  simp

/-- Peeling the least significant byte off the emitted big-endian address
byte list. -/
theorem addressBytes_succ (k e : Nat) :
    __EEPROM_AddressBytes (k + 1) e
      = __EEPROM_AddressBytes k (e >>> 8) ++ [e &&& 0xFF] := by
  unfold __EEPROM_AddressBytes
  rw [List.range_succ, List.map_append]
  congr 1
  · apply List.map_congr_left
    intro z hz
    have hz' : z < k := List.mem_range.mp hz
    have harith : (k + 1 - z - 1) * 8 = 8 + (k - z - 1) * 8 := by
      have h1 : k + 1 - z - 1 = (k - z - 1) + 1 := by omega
      rw [h1]
      ring
    rw [harith, Nat.shiftRight_add]
  · simp

/-- `beValue` of a list with one byte appended. -/
theorem beValue_append_singleton (xs : List Nat) (b : Nat) :
    beValue (xs ++ [b]) = beValue xs * 256 + b := by
  unfold beValue
  rw [List.foldl_append]
  rfl

/-- The emitted big-endian address byte sequence denotes exactly the low
`8*k` bits of the address. -/
theorem beValue_addressBytes : ∀ k e, beValue (__EEPROM_AddressBytes k e) = e % 2 ^ (8 * k) := by
  intro k
  induction k with
  | zero => intro e; simp [__EEPROM_AddressBytes, beValue, Nat.mod_one]
  | succ n ihn =>
    intro e
    rw [addressBytes_succ, beValue_append_singleton, ihn]
    rw [Nat.shiftRight_eq_div_pow]
    have h255 : e &&& 0xFF = e % 256 := by
      have h := Nat.and_pow_two_sub_one_eq_mod e 8
      norm_num at h
      exact h
    rw [h255]
    have hpow : (2 : Nat) ^ (8 * (n + 1)) = 256 * 2 ^ (8 * n) := by
      rw [show 8 * (n + 1) = 8 + 8 * n from by ring, pow_add]
      norm_num
    rw [hpow, Nat.mod_mul, show (2 : Nat) ^ 8 = 256 from by norm_num]
    ring

/-- The number of emitted address bytes. -/
theorem addressBytes_length (k e : Nat) : (__EEPROM_AddressBytes k e).length = k := by
  simp [__EEPROM_AddressBytes]

/-- The `i`-th emitted address byte is byte `k-1-i` of the address: most
significant byte first. -/
theorem addressBytes_getElem (k e i : Nat) (h : i < k) :
    (__EEPROM_AddressBytes k e)[i]? = some (e / 2 ^ (8 * (k - 1 - i)) % 256) := by
  unfold __EEPROM_AddressBytes
  rw [List.getElem?_map, List.getElem?_range h]
  simp only [Option.map_some']
  congr 1
  rw [Nat.shiftRight_eq_div_pow]
  have h255 : e / 2 ^ ((k - i - 1) * 8) &&& 0xFF = e / 2 ^ ((k - i - 1) * 8) % 256 := by
    have hx := Nat.and_pow_two_sub_one_eq_mod (e / 2 ^ ((k - i - 1) * 8)) 8
    norm_num at hx
    exact hx
  rw [h255]
  have hidx : (k - i - 1) * 8 = 8 * (k - 1 - i) := by
    have hk : k - i - 1 = k - 1 - i := by omega
    rw [hk]
    ring
  rw [hidx]

/-- Recombining the folded select bits (shifted down to bit 0 and placed above
the address bytes) with the byte-encoded low bits recovers the address. -/
theorem fold_plus_bytes (e n f : Nat) (hn : 1 ≤ n) (he : e < 2 ^ (n + f)) :
    (((e >>> (n - 1)) &&& (2 ^ (f + 1) - 2)) >>> 1) * 2 ^ n + e % 2 ^ n = e := by
  have hmask : (2 : Nat) ^ (f + 1) - 2 = (2 ^ f - 1) * 2 ^ 1 := by
    rw [Nat.sub_mul, pow_succ]
    norm_num
  rw [hmask, land_mask_mul, Nat.shiftRight_eq_div_pow e (n - 1),
    Nat.shiftRight_eq_div_pow _ 1]
  have h1 : (2 : Nat) ^ 1 = 2 := by norm_num
  rw [h1]
  have hdd : e / 2 ^ (n - 1) / 2 = e / 2 ^ n := by
    rw [Nat.div_div_eq_div_mul]
    congr 1
    rw [← pow_succ]
    congr 1
    omega
  have hcancel : e / 2 ^ (n - 1) / 2 % 2 ^ f * 2 / 2 = e / 2 ^ (n - 1) / 2 % 2 ^ f :=
    Nat.mul_div_cancel _ (by norm_num)
  rw [hcancel, hdd]
  have hmod : e % (2 ^ n * 2 ^ f) = e := by
    rw [← pow_add]
    exact Nat.mod_eq_of_lt he
  calc e / 2 ^ n % 2 ^ f * 2 ^ n + e % 2 ^ n
      = e % 2 ^ n + 2 ^ n * (e / 2 ^ n % 2 ^ f) := by ring
    _ = e % (2 ^ n * 2 ^ f) := (Nat.mod_mul).symm
    _ = e := hmod

/-- C5: `__EEPROM_WriteAddress` emits exactly `AddrBytes = AddressType & 0x0F`
address bytes, big-endian most-significant-first (their big-endian value is
the low `8*AddrBytes` bits of the offset-adjusted address, and the `i`-th byte
is byte `AddrBytes-1-i`); the folded top address bits land only in the
chip-select byte positions declared by the `AddrTypeAx` mask; the remaining
chip-select bits carry exactly the `ChipAddress` base OR the strap bits with
the folded positions masked out of the strap; and the R/W bit is cleared. -/
theorem addressCodec_wireFormat (conf : EEPROM_Conf) (strap address : Nat)
    (_hAT : conf.AddressType ∈ EEPROM_SupportedAddressTypes)
    (hchip : conf.ChipAddress &&& AddrTypeAx conf = 0) :
    (writeAddressBytes conf (effAddress conf address)).length = AddrBytes conf ∧
    beValue (writeAddressBytes conf (effAddress conf address))
      = effAddress conf address % 2 ^ (8 * AddrBytes conf) ∧
    (∀ i, i < AddrBytes conf →
      (writeAddressBytes conf (effAddress conf address))[i]?
        = some (effAddress conf address / 2 ^ (8 * (AddrBytes conf - 1 - i)) % 256)) ∧
    chipAddrByte conf strap (effAddress conf address) &&& AddrTypeAx conf
      = (effAddress conf address >>> (8 * AddrBytes conf - 1)) &&& AddrTypeAx conf ∧
    chipAddrByte conf strap (effAddress conf address) &&& (0xFE ^^^ AddrTypeAx conf)
      = (conf.ChipAddress ||| (strap &&& (0xFF ^^^ AddrTypeAx conf)))
          &&& (0xFE ^^^ AddrTypeAx conf) ∧
    chipAddrByte conf strap (effAddress conf address) % 2 = 0 :=
  ⟨addressBytes_length _ _, beValue_addressBytes _ _,
    fun i hi => addressBytes_getElem _ _ i hi,
    chipByte_fold _ _ _ _ _ hchip (AddrTypeAx_and_254 conf) (AddrTypeAx_lt_256 conf),
    chipByte_rest _ _ _ _ _ (AddrTypeAx_and_254 conf),
    chipByte_bit0 _ _ _ _ _⟩

/-- Witness for `addressCodec_wireFormat` on an AT24C04-style profile
(1 address byte plus folded A0, base 0xA0, strap A2). -/
theorem addressCodec_wireFormat_witness :
    beValue (writeAddressBytes ⟨0xA0, 0x21, 5, 16, 0, 512⟩
        (effAddress ⟨0xA0, 0x21, 5, 16, 0, 512⟩ 300))
      = effAddress ⟨0xA0, 0x21, 5, 16, 0, 512⟩ 300
          % 2 ^ (8 * AddrBytes ⟨0xA0, 0x21, 5, 16, 0, 512⟩) ∧
    chipAddrByte ⟨0xA0, 0x21, 5, 16, 0, 512⟩ 8
        (effAddress ⟨0xA0, 0x21, 5, 16, 0, 512⟩ 300) % 2 = 0 :=
  ⟨(addressCodec_wireFormat ⟨0xA0, 0x21, 5, 16, 0, 512⟩ 8 300
      (by decide) (by decide)).2.1,
    (addressCodec_wireFormat ⟨0xA0, 0x21, 5, 16, 0, 512⟩ 8 300
      (by decide) (by decide)).2.2.2.2.2⟩

/-- C4: for every supported address type, base address clear on the folded
positions, and logical address in range on a profile whose capacity fits the
encodable space, decoding the emitted `(chip-select byte, address bytes)` pair
with the profile's inverse mapping (folded chip-select bits concatenated above
the big-endian address bytes, offset removed) recovers the original logical
address; in particular the encoding is injective on `[0, TotalByteSize)`. -/
theorem addressCodec_roundtrip (conf : EEPROM_Conf) (strap address : Nat)
    (hAT : conf.AddressType ∈ EEPROM_SupportedAddressTypes)
    (hchip : conf.ChipAddress &&& AddrTypeAx conf = 0)
    (haddr : address < conf.TotalByteSize)
    (hcap : conf.TotalByteSize + conf.OffsetAddress
        ≤ 2 ^ (8 * AddrBytes conf + foldWidth (AddrTypeAx conf)))
    (hcap32 : conf.TotalByteSize + conf.OffsetAddress ≤ 2 ^ 32) :
    specDecodeAddress conf (chipAddrByte conf strap (effAddress conf address))
      (writeAddressBytes conf (effAddress conf address)) = address := by
  have he32 : address + conf.OffsetAddress < 2 ^ 32 := by omega
  have heff : effAddress conf address = address + conf.OffsetAddress := by
    unfold effAddress
    exact Nat.mod_eq_of_lt he32
  obtain ⟨f, hf3, hax, hfw, hab⟩ : ∃ f, f ≤ 3 ∧ AddrTypeAx conf = 2 ^ (f + 1) - 2
      ∧ foldWidth (AddrTypeAx conf) = f ∧ 1 ≤ AddrBytes conf := by
    simp only [EEPROM_SupportedAddressTypes, List.mem_cons,
      List.not_mem_nil, or_false] at hAT
    rcases hAT with h|h|h|h|h|h|h|h|h|h|h|h|h
    · exact ⟨0, by norm_num, by rw [AddrTypeAx_eq, h]; try decide,
        by rw [AddrTypeAx_eq, h]; try decide, by rw [AddrBytes_eq, h]; try decide⟩
    · exact ⟨1, by norm_num, by rw [AddrTypeAx_eq, h]; try decide,
        by rw [AddrTypeAx_eq, h]; try decide, by rw [AddrBytes_eq, h]; try decide⟩
    · exact ⟨2, by norm_num, by rw [AddrTypeAx_eq, h]; try decide,
        by rw [AddrTypeAx_eq, h]; try decide, by rw [AddrBytes_eq, h]; try decide⟩
    · exact ⟨3, by norm_num, by rw [AddrTypeAx_eq, h]; try decide,
        by rw [AddrTypeAx_eq, h]; try decide, by rw [AddrBytes_eq, h]; try decide⟩
    · exact ⟨0, by norm_num, by rw [AddrTypeAx_eq, h]; try decide,
        by rw [AddrTypeAx_eq, h]; try decide, by rw [AddrBytes_eq, h]; try decide⟩
    · exact ⟨1, by norm_num, by rw [AddrTypeAx_eq, h]; try decide,
        by rw [AddrTypeAx_eq, h]; try decide, by rw [AddrBytes_eq, h]; try decide⟩
    · exact ⟨2, by norm_num, by rw [AddrTypeAx_eq, h]; try decide,
        by rw [AddrTypeAx_eq, h]; try decide, by rw [AddrBytes_eq, h]; try decide⟩
    · exact ⟨3, by norm_num, by rw [AddrTypeAx_eq, h]; try decide,
        by rw [AddrTypeAx_eq, h]; try decide, by rw [AddrBytes_eq, h]; try decide⟩
    · exact ⟨0, by norm_num, by rw [AddrTypeAx_eq, h]; try decide,
        by rw [AddrTypeAx_eq, h]; try decide, by rw [AddrBytes_eq, h]; try decide⟩
    · exact ⟨1, by norm_num, by rw [AddrTypeAx_eq, h]; try decide,
        by rw [AddrTypeAx_eq, h]; try decide, by rw [AddrBytes_eq, h]; try decide⟩
    · exact ⟨2, by norm_num, by rw [AddrTypeAx_eq, h]; try decide,
        by rw [AddrTypeAx_eq, h]; try decide, by rw [AddrBytes_eq, h]; try decide⟩
    · exact ⟨3, by norm_num, by rw [AddrTypeAx_eq, h]; try decide,
        by rw [AddrTypeAx_eq, h]; try decide, by rw [AddrBytes_eq, h]; try decide⟩
    · exact ⟨0, by norm_num, by rw [AddrTypeAx_eq, h]; try decide,
        by rw [AddrTypeAx_eq, h]; try decide, by rw [AddrBytes_eq, h]; try decide⟩
  have hebound : effAddress conf address < 2 ^ (8 * AddrBytes conf + f) := by
    rw [heff, ← hfw]
    omega
  unfold specDecodeAddress writeAddressBytes chipAddrByte
  rw [beValue_addressBytes,
    chipByte_fold _ _ _ _ _ hchip (AddrTypeAx_and_254 conf) (AddrTypeAx_lt_256 conf),
    hax,
    fold_plus_bytes (effAddress conf address) (8 * AddrBytes conf) f (by omega) hebound,
    heff]
  omega

/-- Witness for `addressCodec_roundtrip` on an AT24C04-style profile at
address 300 (one address byte, bit 8 folded into the chip-select byte). -/
theorem addressCodec_roundtrip_witness :
    specDecodeAddress ⟨0xA0, 0x21, 5, 16, 0, 512⟩
        (chipAddrByte ⟨0xA0, 0x21, 5, 16, 0, 512⟩ 8
          (effAddress ⟨0xA0, 0x21, 5, 16, 0, 512⟩ 300))
        (writeAddressBytes ⟨0xA0, 0x21, 5, 16, 0, 512⟩
          (effAddress ⟨0xA0, 0x21, 5, 16, 0, 512⟩ 300)) = 300 :=
  addressCodec_roundtrip ⟨0xA0, 0x21, 5, 16, 0, 512⟩ 8 300
    (by decide) (by decide) (by norm_num) (by decide) (by decide)

end Memories
